import Mathlib

/-!
Shallow embedding of the nansen-fresh-searcher detection pipeline.

Monetary amounts are modelled as exact rationals, block timestamps as
naturals, and every fallible upstream call as an `Except Unit` value:
`.error ()` is a failed call, `.ok xs` a successful response. Functions
are translated from `src/services/fresh-wallet.service.ts`,
`src/services/fresh-wallet.scanner.ts` and `src/services/cache.service.ts`.
-/

set_option linter.unusedVariables false

namespace NansenFresh

/-- USD amounts as exact rationals. -/
abbrev USD := ℚ

/-- JS `toLowerCase`, over the character list of the string. -/
def strToLower (s : String) : String := ⟨s.data.map Char.toLower⟩

/-- `s` starts with `p`: its first `p.length` characters are `p`. -/
def strStartsWith (s p : String) : Bool :=
  decide (s.data.take p.data.length = p.data)

/-- `s` ends with `p`: its last `p.length` characters are `p`. -/
def strEndsWith (s p : String) : Bool :=
  decide (s.data.drop (s.data.length - p.data.length) = p.data)

/-! ## Private-wallet classification (`isValidPrivateWallet`) -/

/-- First hard-coded router address from the `knownPatterns` list. -/
def uniswapV2Router : String := "0x7a250d5630b4cf539739df2c5dacb4c659f2488d"

/-- Second hard-coded router address from the `knownPatterns` list. -/
def uniswapV3Router : String := "0xe592427a0aece92de3edee1f18e0157c05861564"

/-- Ten zero hex digits, the minimal run matched by the zero-run regexes. -/
def tenZeros : String := "0000000000"

/-- The regex test `/^0x0{10,}/.test s`: the string starts with `0x`
followed by at least ten `0` characters, which holds exactly when its
first twelve characters are `0x` plus ten zeros. -/
def startsWithManyZeros (s : String) : Bool :=
  strStartsWith s ("0x" ++ tenZeros)

/-- The regex test `/0{10,}$/.test s`: the string ends with a run of at
least ten `0` characters, which holds exactly when its last ten
characters are all zeros. -/
def endsWithManyZeros (s : String) : Bool :=
  strEndsWith s tenZeros

/-- `FreshWalletService.isValidPrivateWallet`: lowercases the address and
rejects it when it equals one of the two hard-coded router addresses or
matches one of the zero-run regexes; every other address passes. The
function receives only the address string — no label is consulted. -/
def isValidPrivateWallet (address : String) : Bool :=
  let lowerAddress := strToLower address
  if lowerAddress = uniswapV2Router then false
  else if lowerAddress = uniswapV3Router then false
  else if startsWithManyZeros lowerAddress then false
  else if endsWithManyZeros lowerAddress then false
  else true

/-! ## Transfers and the candidate filter -/

/-- One record of the token-transfers response. `toAddress` is optional
(the source guards on its truthiness) and `valueUsd` defaults to `0`
via `transfer.valueUsd || 0`. -/
structure TokenTransfer where
  fromAddress : String
  toAddress : Option String
  valueUsd : Option USD
  blockTimestamp : Nat
  txType : String
  deriving Repr, DecidableEq

/-- The predicate of the `significantIncomingTransfers` filter in
`findFreshWalletsForSpecificToken`: `usdValue >= minDepositUSD && recipient
&& this.isValidPrivateWallet(recipient)`, where a missing or empty
recipient string is falsy. -/
def isCandidateTransfer (minDepositUSD : USD) (t : TokenTransfer) : Bool :=
  let usdValue := t.valueUsd.getD 0
  match t.toAddress with
  | none => false
  | some recipient =>
      decide (minDepositUSD ≤ usdValue) && recipient != "" &&
        isValidPrivateWallet recipient

/-- `transfers.filter((transfer) => ...)` from
`findFreshWalletsForSpecificToken`. -/
def significantIncomingTransfers (minDepositUSD : USD)
    (transfers : List TokenTransfer) : List TokenTransfer :=
  transfers.filter (isCandidateTransfer minDepositUSD)

/-! ## Freshness verification -/

/-- One record of the address-transactions response. The verifier reads
only `blockTimestamp`; the symbols of the received tokens
(`tokenReceivedTransformed`) are carried in the data model but never
inspected by the source. -/
structure WalletTx where
  blockTimestamp : Nat
  tokensReceivedSymbols : List String
  deriving Repr, DecidableEq

/-- One record of the address-balances responses. -/
structure TokenBalance where
  tokenAddress : String
  usdValue : Option USD
  deriving Repr, DecidableEq

/-- The three upstream calls made by
`verifyWalletWasTrulyFreshBeforeTransfer`, each either failed or
returning its list of records. -/
structure VerifyCalls where
  addressTransactions : Except Unit (List WalletTx)
  addressBalances : Except Unit (List TokenBalance)
  addressHistoricalBalances : Except Unit (List TokenBalance)

/-- `FreshWalletService.verifyWalletWasTrulyFreshBeforeTransfer`.
Step 1 rejects non-private wallets; step 2/3 fetches all transactions and
rejects the wallet when any transaction is strictly earlier than the
transfer timestamp; step 4 rejects it when any balance on a different
token exceeds $1; step 5 rejects it when any historical balance exceeds
$1, but a failure of the historical-balances call alone is caught by the
inner `try`/`catch` and tolerated. The outer `catch` turns a failure of
the transactions or balances call into `false`. -/
def verifyWalletWasTrulyFreshBeforeTransfer (calls : VerifyCalls)
    (walletAddress : String) (transferTimestamp : Nat)
    (tokenAddress : String) (transferAmountUSD : USD) : Bool :=
  if !isValidPrivateWallet walletAddress then false
  else
    match calls.addressTransactions with
    | .error _ => false
    | .ok allTransactions =>
      let previousTransactions := allTransactions.filter
        (fun tx => tx.blockTimestamp < transferTimestamp)
      if previousTransactions.length > 0 then false
      else
        match calls.addressBalances with
        | .error _ => false
        | .ok currentBalances =>
          let otherTokens := currentBalances.filter (fun b =>
            strToLower b.tokenAddress != strToLower tokenAddress &&
              decide ((1 : USD) < b.usdValue.getD 0))
          if otherTokens.length > 0 then false
          else
            match calls.addressHistoricalBalances with
            | .error _ => true
            | .ok historicalBalances =>
              if historicalBalances.any
                  (fun b => decide ((1 : USD) < b.usdValue.getD 0)) then
                false
              else true

/-- The two upstream calls made by `checkWalletFreshnessAlternative`, in
call order (balances first, then transactions). -/
structure AltCalls where
  addressBalances : Except Unit (List TokenBalance)
  addressTransactions : Except Unit (List WalletTx)

/-- `FreshWalletService.checkWalletFreshnessAlternative`: fetches current
balances (unused afterwards) and recent transactions, then returns
`hasLimitedHistory && isRecentFirstActivity`. A failure of either call is
caught and resolved to `true` ("Default to considering it fresh"). -/
def checkWalletFreshnessAlternative (calls : AltCalls)
    (thirtyDaysAgo : Nat) : Bool :=
  match calls.addressBalances with
  | .error _ => true
  | .ok _currentBalances =>
    match calls.addressTransactions with
    | .error _ => true
    | .ok recentTransactions =>
      let hasLimitedHistory := recentTransactions.length < 10
      let firstTransaction :=
        (recentTransactions.mergeSort
          (fun a b => a.blockTimestamp ≤ b.blockTimestamp)).head?
      let isRecentFirstActivity :=
        match firstTransaction with
        | none => false
        | some tx => thirtyDaysAgo < tx.blockTimestamp
      hasLimitedHistory && isRecentFirstActivity

/-- `FreshWalletService.checkIfWalletWasPreviouslyEmpty`: empty history is
fresh, any snapshot above $10 disqualifies, and a failure of the
historical-balances call falls back to the alternative check. -/
def checkIfWalletWasPreviouslyEmpty
    (historicalCall : Except Unit (List TokenBalance))
    (altCalls : AltCalls) (thirtyDaysAgo : Nat) : Bool :=
  match historicalCall with
  | .ok historicalBalances =>
    if historicalBalances.length = 0 then true
    else !(historicalBalances.any
      (fun b => decide ((10 : USD) < b.usdValue.getD 0)))
  | .error _ => checkWalletFreshnessAlternative altCalls thirtyDaysAgo

/-! ## Deduplication -/

/-- The final verified output record. -/
structure FreshWallet where
  wallet : String
  chain : String
  initDepositUSD : USD
  deriving Repr, DecidableEq

/-- The deduplication key `` `${wallet.wallet}:${wallet.chain}` ``. -/
def walletKey (w : FreshWallet) : String := w.wallet ++ ":" ++ w.chain

/-- Loop of `FreshWalletService.removeDuplicateWallets`: a `seen` set of
keys, keeping the first record for each key in input order. -/
def serviceDedupGo (seen : List String) : List FreshWallet → List FreshWallet
  | [] => []
  | w :: rest =>
    if walletKey w ∈ seen then serviceDedupGo seen rest
    else w :: serviceDedupGo (walletKey w :: seen) rest

namespace FreshWalletService

/-- `FreshWalletService.removeDuplicateWallets`: keeps the first record
seen for each `(wallet, chain)` key, whatever its deposit amount. -/
def removeDuplicateWallets (wallets : List FreshWallet) : List FreshWallet :=
  serviceDedupGo [] wallets

end FreshWalletService

/-- One `seen.set(key, wallet)` step of
`FreshWalletScanner.removeDuplicateWallets` over the insertion-ordered
map: an existing key keeps its position and is overwritten only when the
new record's deposit is strictly larger; a new key is appended. -/
def upsertWallet : List (String × FreshWallet) → FreshWallet →
    List (String × FreshWallet)
  | [], w => [(walletKey w, w)]
  | (k, v) :: rest, w =>
    if k = walletKey w then
      if v.initDepositUSD < w.initDepositUSD then (k, w) :: rest
      else (k, v) :: rest
    else (k, v) :: upsertWallet rest w

namespace FreshWalletScanner

/-- `FreshWalletScanner.removeDuplicateWallets`: folds the input through
the map, then returns `Array.from(seen.values())`. -/
def removeDuplicateWallets (wallets : List FreshWallet) : List FreshWallet :=
  (wallets.foldl upsertWallet []).map Prod.snd

end FreshWalletScanner

/-! ## Scan orchestration (`FreshWalletScanner`)

The scanner owns a single `isRunning` flag. `runScan` (the scheduled
tick) skips when the flag is set, otherwise sets it, awaits
`performScan`, and clears it in a `finally` block on success and failure
alike. `runManualScan` calls `performScan` directly, without reading or
writing the flag. `activeScans` is ghost instrumentation counting the
`performScan` invocations currently in flight; the source steps
translated here touch it exactly when they start or finish such an
invocation. -/

/-- Scanner state: the source's `isRunning` flag plus the ghost count of
in-flight `performScan` invocations. -/
structure ScannerState where
  isRunning : Bool
  activeScans : Nat
  deriving Repr, DecidableEq

/-- A scheduled tick (`runScan` entry): if `isRunning`, log and return
without starting anything; otherwise set the flag and start a scan. -/
def tickScan (s : ScannerState) : ScannerState :=
  if s.isRunning then s
  else { isRunning := true, activeScans := s.activeScans + 1 }

/-- Completion of a scheduled scan with outcome `ok` (success or caught
failure): the `finally` block clears `isRunning` in both cases. -/
def finishScheduledScan (ok : Bool) (s : ScannerState) : ScannerState :=
  { isRunning := false, activeScans := s.activeScans - 1 }

/-- `runManualScan`: starts `performScan` directly; the `isRunning` flag
is neither read nor written. -/
def startManualScan (s : ScannerState) : ScannerState :=
  { s with activeScans := s.activeScans + 1 }

/-- Completion of a manual scan: `performScan` has no `finally` on the
flag, so only the ghost count changes. -/
def finishManualScan (s : ScannerState) : ScannerState :=
  { s with activeScans := s.activeScans - 1 }

/-- States reachable from the initial scanner state using only the
scheduled path: ticks, and completions of a scan that is actually
running. -/
inductive SchedReachable : ScannerState → Prop
  | init : SchedReachable ⟨false, 0⟩
  | tick {s : ScannerState} : SchedReachable s → SchedReachable (tickScan s)
  | finish {s : ScannerState} (ok : Bool) :
      SchedReachable s → s.isRunning = true →
      SchedReachable (finishScheduledScan ok s)

/-! ## TTL cache (`CacheService`)

The wrapped node-cache store is a key-addressed map of values with
absolute expiry instants; a `get` of an expired or absent key yields
`none` (the library's internal lazy deletion of an expired entry is not
observable through this interface and is not modelled as a mutation).
`getOrSet` returns, besides its value and the resulting store, the
number of times it invoked the factory; the factory itself is a
one-shot `Except`: `.error ()` a thrown exception, `.ok none` a factory
that resolved to `undefined`, `.ok (some v)` a defined result. The
`try`/`catch` of the source is translated by `getOrSet` returning a
plain value on every factory outcome: no error escapes. -/

/-- One stored cache entry. -/
structure CacheEntry (V : Type) where
  value : V
  expiresAt : Nat
  deriving Repr, DecidableEq

/-- The cache store. -/
structure CacheState (V : Type) where
  entries : List (String × CacheEntry V)
  deriving Repr, DecidableEq

/-- Raw lookup of a key's entry, ignoring expiry. -/
def cacheLookup {V : Type} (s : CacheState V) (key : String) :
    Option (CacheEntry V) :=
  (s.entries.find? (fun e => e.1 == key)).map Prod.snd

namespace CacheService

/-- `CacheService.get`: the stored value when present and not expired,
otherwise `undefined`. -/
def get {V : Type} (now : Nat) (s : CacheState V) (key : String) :
    Option V :=
  match cacheLookup s key with
  | none => none
  | some e => if now < e.expiresAt then some e.value else none

/-- Key-preserving insert-or-replace on the entry list. -/
def setEntry {V : Type} : List (String × CacheEntry V) → String →
    CacheEntry V → List (String × CacheEntry V)
  | [], k, e => [(k, e)]
  | (k0, e0) :: rest, k, e =>
    if k0 = k then (k, e) :: rest else (k0, e0) :: setEntry rest k e

/-- `CacheService.set`: stores the value under the key with expiry
`now + ttl`. -/
def set {V : Type} (now : Nat) (s : CacheState V) (key : String) (value : V)
    (ttl : Nat) : CacheState V :=
  ⟨setEntry s.entries key ⟨value, now + ttl⟩⟩

/-- `CacheService.getOrSet`: returns the cached value on a hit without
touching the factory; on a miss invokes the factory once, stores its
result only when it is defined, and returns it; a factory exception is
caught and `undefined` returned. The third component counts factory
invocations. -/
def getOrSet {V : Type} (now : Nat) (s : CacheState V) (key : String)
    (factory : Except Unit (Option V)) (ttl : Nat) :
    Option V × CacheState V × Nat :=
  match get now s key with
  | some value => (some value, s, 0)
  | none =>
    match factory with
    | .error _ => (none, s, 1)
    | .ok none => (none, s, 1)
    | .ok (some value) => (some value, set now s key value ttl, 1)

end CacheService


/-! ## C1 -/

/-- C1 counterexample: the claim says every failed upstream sub-call
resolves the verification to not fresh, yet when only the
historical-balances call fails, `verifyWalletWasTrulyFreshBeforeTransfer`
still classifies the wallet as fresh. -/
theorem verification_failure_cex :
    verifyWalletWasTrulyFreshBeforeTransfer
      ⟨Except.ok [], Except.ok [], Except.error ()⟩ "0xaabb" 100 "0xtok" 500 = true := by
  rfl

/-- C1 amended: a failure of the transactions call or of the
current-balances call resolves the primary verification to not fresh,
but a failure of the historical-balances call alone is tolerated and the
wallet can still be classified fresh; the alternative freshness check
resolves a failure of either of its own calls to fresh (`true`). -/
theorem verification_failure_amended :
    (∀ (bal hist : Except Unit (List TokenBalance)) (a tok : String)
        (ts : Nat) (amt : USD),
      verifyWalletWasTrulyFreshBeforeTransfer
        ⟨Except.error (), bal, hist⟩ a ts tok amt = false)
    ∧ (∀ (txs : List WalletTx) (hist : Except Unit (List TokenBalance))
        (a tok : String) (ts : Nat) (amt : USD),
      verifyWalletWasTrulyFreshBeforeTransfer
        ⟨Except.ok txs, Except.error (), hist⟩ a ts tok amt = false)
    ∧ (∃ (calls : VerifyCalls) (a tok : String) (ts : Nat) (amt : USD),
      calls.addressHistoricalBalances = Except.error () ∧
        verifyWalletWasTrulyFreshBeforeTransfer calls a ts tok amt = true)
    ∧ (∀ (txsCall : Except Unit (List WalletTx)) (thirty : Nat),
      checkWalletFreshnessAlternative ⟨Except.error (), txsCall⟩ thirty = true)
    ∧ (∀ (balCall : Except Unit (List TokenBalance)) (thirty : Nat),
      checkWalletFreshnessAlternative ⟨balCall, Except.error ()⟩ thirty = true) := by
  refine ⟨?_, ?_, ?_, ?_, ?_⟩
  · intro bal hist a tok ts amt
    unfold verifyWalletWasTrulyFreshBeforeTransfer
    split <;> rfl
  · intro txs hist a tok ts amt
    unfold verifyWalletWasTrulyFreshBeforeTransfer
    dsimp only
    split
    · rfl
    · split <;> rfl
  · exact ⟨⟨Except.ok [], Except.ok [], Except.error ()⟩, "0xaabb", "0xtok",
      100, 500, rfl, by rfl⟩
  · intro txsCall thirty
    rfl
  · intro balCall thirty
    cases balCall <;> rfl

/-! ## C2 -/

/-- C2 counterexample: the claim says a pre-deposit transaction whose
only received token matches the currently evaluated symbol is discarded
as noise and the wallet stays fresh; the code performs no such discard,
so a wallet whose only earlier transaction received just `"TOK"` is
judged not fresh. -/
theorem same_symbol_discard_cex :
    verifyWalletWasTrulyFreshBeforeTransfer
      ⟨Except.ok [⟨5, ["TOK"]⟩], Except.ok [], Except.ok []⟩
      "0xaabb" 10 "0xtok" 500 = false := by
  rfl

/-- C2 amended: no symbol-based discard exists: every transaction with a
timestamp strictly earlier than the deposit timestamp counts as prior
activity, whatever tokens it received, and the wallet is judged not
fresh whenever any such transaction is present. -/
theorem prior_activity_any_symbol :
    ∀ (calls : VerifyCalls) (txs : List WalletTx) (tx : WalletTx)
      (a tok : String) (ts : Nat) (amt : USD),
      calls.addressTransactions = Except.ok txs → tx ∈ txs →
      tx.blockTimestamp < ts →
      verifyWalletWasTrulyFreshBeforeTransfer calls a ts tok amt = false := by
  intro calls txs tx a tok ts amt hcall hmem hts
  obtain ⟨txsC, balC, histC⟩ := calls
  simp only at hcall
  subst hcall
  unfold verifyWalletWasTrulyFreshBeforeTransfer
  split
  · rfl
  · have hmemf : tx ∈ txs.filter (fun t => t.blockTimestamp < ts) :=
      List.mem_filter.mpr ⟨hmem, by simpa using hts⟩
    have hpos : 0 < (txs.filter (fun t => t.blockTimestamp < ts)).length :=
      List.length_pos.mpr (List.ne_nil_of_mem hmemf)
    simp [hpos]

/-- Witness for `prior_activity_any_symbol` at a concrete input. -/
theorem prior_activity_any_symbol_witness :
    verifyWalletWasTrulyFreshBeforeTransfer
      ⟨Except.ok [⟨5, ["OTHER"]⟩], Except.ok [], Except.ok []⟩
      "0xaabb" 10 "0xtok" 500 = false :=
  prior_activity_any_symbol ⟨Except.ok [⟨5, ["OTHER"]⟩], Except.ok [], Except.ok []⟩
    [⟨5, ["OTHER"]⟩] ⟨5, ["OTHER"]⟩ "0xaabb" "0xtok" 10 500 rfl
    (by simp) (by decide)

/-! ## C3 -/

/-- C3 counterexample: the claim says a wallet with no prior transaction
history is always verified fresh, the balance signals being optional;
yet a wallet with no earlier transactions and a $5 balance on a
different token is judged not fresh by the balance check. -/
theorem no_history_balance_veto_cex :
    verifyWalletWasTrulyFreshBeforeTransfer
      ⟨Except.ok [], Except.ok [⟨"0xother", some 5⟩], Except.ok []⟩
      "0xaabb" 10 "0xtok" 500 = false := by
  rfl

/-- C3 amended: a wallet with no transaction strictly before the deposit
is verified fresh provided additionally the address passes the
private-wallet check, no current balance on a different token exceeds
$1, and, when the historical-balances call succeeds, no historical
snapshot exceeds $1 — the balance-based signals can veto the outcome. -/
theorem no_history_fresh_amended :
    ∀ (txs : List WalletTx) (bal : List TokenBalance)
      (hist : Except Unit (List TokenBalance)) (a tok : String)
      (ts : Nat) (amt : USD),
      isValidPrivateWallet a = true →
      txs.filter (fun tx => tx.blockTimestamp < ts) = [] →
      bal.filter (fun b =>
        strToLower b.tokenAddress != strToLower tok &&
          decide ((1 : USD) < b.usdValue.getD 0)) = [] →
      (∀ h, hist = Except.ok h →
        h.any (fun b => decide ((1 : USD) < b.usdValue.getD 0)) = false) →
      verifyWalletWasTrulyFreshBeforeTransfer
        ⟨Except.ok txs, Except.ok bal, hist⟩ a ts tok amt = true := by
  intro txs bal hist a tok ts amt hpriv hprev hbal hhist
  unfold verifyWalletWasTrulyFreshBeforeTransfer
  rw [hpriv]
  simp only [Bool.not_true, Bool.false_eq_true, if_false]
  simp only [hprev, hbal, List.length_nil, gt_iff_lt, Nat.lt_irrefl, if_false]
  cases hist with
  | error e => rfl
  | ok h => simp [hhist h rfl]

/-- Witness for `no_history_fresh_amended` at a concrete input. -/
theorem no_history_fresh_amended_witness :
    verifyWalletWasTrulyFreshBeforeTransfer
      ⟨Except.ok [], Except.ok [], Except.ok []⟩
      "0xaabb" 10 "0xtok" 500 = true :=
  no_history_fresh_amended [] [] (Except.ok []) "0xaabb" "0xtok" 10 500
    (by rfl) (by rfl) (by rfl) (fun h hh => by cases hh; rfl)

/-! ## C4 -/

/-- C4 counterexample: the claim says a transfer whose `txType` is not
one of `transfer`, `swap`, `simpleSwap` never becomes a candidate, yet a
`multicall` transfer of sufficient value to a valid private recipient
passes the candidate filter. -/
theorem txType_filter_cex :
    isCandidateTransfer 1000
        ⟨"0xsender", some "0xaabb", some 5000, 0, "multicall"⟩ = true ∧
      ("multicall" ∈ (["transfer", "swap", "simpleSwap"] : List String)) = False := by
  constructor
  · rfl
  · simp

/-- C4 amended: the candidate filter never consults `txType`: a fetched
transfer becomes a candidate exactly when its USD value (defaulting to
0) reaches `minDepositUSD`, its recipient is present and non-empty, and
the recipient passes the private-wallet classification; changing
`txType` never changes candidacy. -/
theorem candidate_filter_amended :
    (∀ (minDepositUSD : USD) (t : TokenTransfer),
      isCandidateTransfer minDepositUSD t = true ↔
        ∃ r, t.toAddress = some r ∧ r ≠ "" ∧
          minDepositUSD ≤ t.valueUsd.getD 0 ∧ isValidPrivateWallet r = true)
    ∧ (∀ (minDepositUSD : USD) (t : TokenTransfer) (ty : String),
      isCandidateTransfer minDepositUSD { t with txType := ty } =
        isCandidateTransfer minDepositUSD t) := by
  constructor
  · intro minDepositUSD t
    obtain ⟨fa, toA, vu, ts, ty⟩ := t
    cases toA with
    | none => simp [isCandidateTransfer]
    | some r =>
      simp only [isCandidateTransfer, Bool.and_eq_true, decide_eq_true_eq,
        bne_iff_ne, ne_eq, Option.some.injEq]
      constructor
      · rintro ⟨⟨hle, hne⟩, hpriv⟩
        exact ⟨r, rfl, hne, hle, hpriv⟩
      · rintro ⟨r₂, hr, hne, hle, hpriv⟩
        cases hr
        exact ⟨⟨hle, hne⟩, hpriv⟩
  · intro minDepositUSD t ty
    obtain ⟨fa, toA, vu, ts, ty₀⟩ := t
    rfl

/-! ## C5 -/

/-- C5 counterexample: the claim says exactly two kinds of recipients are
rejected — zero-run addresses and addresses with a non-"unlabeled
address" label; yet the hard-coded router address is rejected although
it matches neither zero-run regex, and the classifier receives no label
at all. -/
theorem private_wallet_label_cex :
    isValidPrivateWallet "0x7a250d5630b4cf539739df2c5dacb4c659f2488d" = false ∧
      startsWithManyZeros "0x7a250d5630b4cf539739df2c5dacb4c659f2488d" = false ∧
      endsWithManyZeros "0x7a250d5630b4cf539739df2c5dacb4c659f2488d" = false := by
  refine ⟨by rfl, by rfl, by rfl⟩

/-- C5 amended: the classification rejects exactly the addresses whose
lowercase form equals one of the two hard-coded router addresses or
matches a run of ten or more leading (after `0x`) or trailing zero hex
digits; it performs no label-based check (it receives only the address),
and every other recipient passes. -/
theorem private_wallet_amended :
    ∀ a : String, isValidPrivateWallet a = false ↔
      (strToLower a = uniswapV2Router ∨ strToLower a = uniswapV3Router ∨
        startsWithManyZeros (strToLower a) = true ∨
        endsWithManyZeros (strToLower a) = true) := by
  intro a
  unfold isValidPrivateWallet
  dsimp only
  split_ifs <;> simp_all

/-! ## C7 -/

/-- Invariant of the scheduled path: the ghost count of in-flight scans
is `1` exactly while `isRunning` is set, `0` otherwise. -/
theorem schedReachable_invariant :
    ∀ s : ScannerState, SchedReachable s →
      s.activeScans = if s.isRunning then 1 else 0 := by
  intro s h
  induction h with
  | init => rfl
  | @tick s h ih =>
    unfold tickScan
    cases hr : s.isRunning with
    | true => simpa [hr] using ih
    | false =>
      rw [hr] at ih
      simp [hr, ih]
  | @finish s ok h hrun ih =>
    rw [hrun] at ih
    simp [finishScheduledScan, ih]

/-- C7: a tick that fires while the scanner is `Running` is a no-op (no
second scan starts and the state is unchanged); the `finally` clause
clears `isRunning` after every scheduled scan regardless of outcome; and
along the scheduled path at most one scan is ever in flight. -/
theorem scheduled_overlap_guard :
    (∀ s : ScannerState, s.isRunning = true → tickScan s = s)
    ∧ (∀ (ok : Bool) (s : ScannerState),
        (finishScheduledScan ok s).isRunning = false)
    ∧ (∀ s : ScannerState, SchedReachable s → s.activeScans ≤ 1) := by
  refine ⟨?_, ?_, ?_⟩
  · intro s h
    simp [tickScan, h]
  · intro ok s
    rfl
  · intro s h
    rw [schedReachable_invariant s h]
    split <;> simp

/-- Witness for `scheduled_overlap_guard` at concrete states. -/
theorem scheduled_overlap_guard_witness :
    tickScan ⟨true, 1⟩ = ⟨true, 1⟩ ∧
      (finishScheduledScan false ⟨true, 1⟩).isRunning = false ∧
      (tickScan ⟨false, 0⟩).activeScans ≤ 1 :=
  ⟨scheduled_overlap_guard.1 ⟨true, 1⟩ rfl,
    scheduled_overlap_guard.2.1 false ⟨true, 1⟩,
    scheduled_overlap_guard.2.2 (tickScan ⟨false, 0⟩)
      (SchedReachable.tick SchedReachable.init)⟩

/-! ## C8 -/

/-- C8: the manual trigger does not share the `Running` guard. From a
state in which a scheduled scan is running, `runManualScan` starts its
scan anyway — two scans are then in flight — and it never reads the
`isRunning` flag: it increments the in-flight count from any state. -/
theorem manual_scan_bypasses_guard :
    startManualScan ⟨true, 1⟩ = ⟨true, 2⟩ ∧
      1 < (startManualScan ⟨true, 1⟩).activeScans ∧
      (∀ s : ScannerState, (startManualScan s).activeScans = s.activeScans + 1
        ∧ (startManualScan s).isRunning = s.isRunning) := by
  refine ⟨rfl, by decide, ?_⟩
  intro s
  exact ⟨rfl, rfl⟩

/-! ## C9 and C10: cache lemmas -/

/-- After `setEntry`, looking the key up finds exactly the new entry. -/
theorem find?_setEntry {V : Type} :
    ∀ (l : List (String × CacheEntry V)) (k : String) (e : CacheEntry V),
      (CacheService.setEntry l k e).find? (fun p => p.1 == k) = some (k, e) := by
  intro l k e
  induction l with
  | nil => simp [CacheService.setEntry]
  | cons p rest ih =>
    obtain ⟨k0, e0⟩ := p
    by_cases h : k0 = k
    · simp [CacheService.setEntry, h]
    · simp [CacheService.setEntry, h, ih]

/-- A freshly `set` key reads back its value at any instant before the
expiry `now + ttl`. -/
theorem get_set_before_expiry {V : Type} (now ttl now₂ : Nat)
    (s : CacheState V) (key : String) (v : V) (h : now₂ < now + ttl) :
    CacheService.get now₂ (CacheService.set now s key v ttl) key = some v := by
  simp [CacheService.get, CacheService.set, cacheLookup, find?_setEntry, h]

/-- C9: on a miss, `getOrSet` invokes the factory exactly once and stores
its (defined) result before returning it; any later `get` of the key
before the TTL expires returns the stored value, and a later `getOrSet`
returns it without invoking its factory at all (the third result
component counts factory invocations). -/
theorem getOrSet_miss_invokes_once_and_caches :
    ∀ (V : Type) (now ttl now₂ ttl₂ : Nat) (s : CacheState V) (key : String)
      (v : V) (f₂ : Except Unit (Option V)),
      CacheService.get now s key = none → now₂ < now + ttl →
      CacheService.getOrSet now s key (Except.ok (some v)) ttl =
          (some v, CacheService.set now s key v ttl, 1)
        ∧ CacheService.get now₂ (CacheService.set now s key v ttl) key = some v
        ∧ CacheService.getOrSet now₂ (CacheService.set now s key v ttl) key
            f₂ ttl₂ = (some v, CacheService.set now s key v ttl, 0) := by
  intro V now ttl now₂ ttl₂ s key v f₂ hmiss hexp
  refine ⟨?_, get_set_before_expiry now ttl now₂ s key v hexp, ?_⟩
  · simp [CacheService.getOrSet, hmiss]
  · simp [CacheService.getOrSet, get_set_before_expiry now ttl now₂ s key v hexp]

/-- Witness for `getOrSet_miss_invokes_once_and_caches` at a concrete
input. -/
theorem getOrSet_miss_invokes_once_and_caches_witness :
    CacheService.getOrSet (V := Nat) 0 ⟨[]⟩ "k" (Except.ok (some 7)) 100 =
        (some 7, CacheService.set 0 ⟨[]⟩ "k" 7 100, 1)
      ∧ CacheService.get 50 (CacheService.set 0 (CacheState.mk []) "k" 7 100) "k" = some 7
      ∧ CacheService.getOrSet 50 (CacheService.set 0 (CacheState.mk []) "k" 7 100) "k"
          (Except.error ()) 60 = (some 7, CacheService.set 0 ⟨[]⟩ "k" 7 100, 0) :=
  getOrSet_miss_invokes_once_and_caches Nat 0 100 50 60 ⟨[]⟩ "k" 7
    (Except.error ()) (by rfl) (by decide)

/-- C10: `getOrSet` never lets a factory failure escape: a throwing
factory yields `undefined` with the cache unchanged, a factory that
resolves to `undefined` has its result returned but not stored, and in
either case a later `getOrSet` of the same (still missing) key invokes
its factory again. -/
theorem getOrSet_swallows_failures :
    ∀ (V : Type) (now ttl : Nat) (s : CacheState V) (key : String),
      CacheService.get now s key = none →
      CacheService.getOrSet now s key (Except.error ()) ttl = (none, s, 1)
        ∧ CacheService.getOrSet now s key (Except.ok none) ttl = (none, s, 1)
        ∧ (∀ (now₂ ttl₂ : Nat) (f : Except Unit (Option V)),
            CacheService.get now₂ s key = none →
            (CacheService.getOrSet now₂ s key f ttl₂).2.2 = 1) := by
  intro V now ttl s key hmiss
  refine ⟨by simp [CacheService.getOrSet, hmiss], by simp [CacheService.getOrSet, hmiss], ?_⟩
  intro now₂ ttl₂ f hmiss₂
  unfold CacheService.getOrSet
  rw [hmiss₂]
  cases f with
  | error e => rfl
  | ok o => cases o <;> rfl

/-- Witness for `getOrSet_swallows_failures` at a concrete input. -/
theorem getOrSet_swallows_failures_witness :
    CacheService.getOrSet (V := Nat) 0 ⟨[]⟩ "k" (Except.error ()) 100 =
        (none, ⟨[]⟩, 1)
      ∧ CacheService.getOrSet (V := Nat) 0 ⟨[]⟩ "k" (Except.ok none) 100 =
        (none, ⟨[]⟩, 1)
      ∧ (CacheService.getOrSet (V := Nat) 5 ⟨[]⟩ "k" (Except.ok none) 100).2.2 = 1 :=
  have h := getOrSet_swallows_failures Nat 0 100 ⟨[]⟩ "k" (by rfl)
  ⟨h.1, h.2.1, h.2.2 5 100 (Except.ok none) (by rfl)⟩

/-! ## C6: deduplication lemmas -/

/-- The service-level dedup loop emits no key twice, and never emits a
key from its `seen` accumulator. -/
theorem serviceDedupGo_nodup_avoid :
    ∀ (l : List FreshWallet) (seen : List String),
      ((serviceDedupGo seen l).map walletKey).Nodup ∧
        ∀ w ∈ serviceDedupGo seen l, walletKey w ∉ seen := by
  intro l
  induction l with
  | nil => intro seen; exact ⟨List.nodup_nil, by simp [serviceDedupGo]⟩
  | cons w rest ih =>
    intro seen
    by_cases h : walletKey w ∈ seen
    · simpa only [serviceDedupGo, if_pos h] using ih seen
    · obtain ⟨hnd, havoid⟩ := ih (walletKey w :: seen)
      simp only [serviceDedupGo, if_neg h]
      refine ⟨?_, ?_⟩
      · simp only [List.map_cons, List.nodup_cons]
        refine ⟨?_, hnd⟩
        intro hmem
        obtain ⟨v, hv, hkey⟩ := List.mem_map.mp hmem
        exact havoid v hv (hkey ▸ List.mem_cons_self _ _)
      · intro v hv
        rcases List.mem_cons.mp hv with hv | hv
        · exact hv ▸ h
        · exact fun hs => havoid v hv (List.mem_cons_of_mem _ hs)

/-- Head of a `find?` over a cons, when the head fails the predicate. -/
theorem find?_cons_false {α : Type} (p : α → Bool) (a : α) (l : List α)
    (h : p a = false) : (a :: l).find? p = l.find? p := by
  simp [List.find?_cons, h]

/-- Head of a `find?` over a cons, when the head satisfies the
predicate. -/
theorem find?_cons_true {α : Type} (p : α → Bool) (a : α) (l : List α)
    (h : p a = true) : (a :: l).find? p = some a := by
  simp [List.find?_cons, h]

/-- For a key not in `seen`, the first record the service-level dedup
output holds for it is the first record of the input with that key. -/
theorem serviceDedupGo_find? :
    ∀ (l : List FreshWallet) (seen : List String) (k : String), k ∉ seen →
      (serviceDedupGo seen l).find? (fun v => walletKey v == k) =
        l.find? (fun v => walletKey v == k) := by
  intro l
  induction l with
  | nil => intro seen k hk; rfl
  | cons w rest ih =>
    intro seen k hk
    by_cases h : walletKey w ∈ seen
    · have hne : ((fun v => walletKey v == k) w) = false := by
        simp only [beq_eq_false_iff_ne, ne_eq]
        rintro rfl
        exact hk h
      rw [serviceDedupGo, if_pos h, ih seen k hk,
        find?_cons_false (fun v => walletKey v == k) w rest hne]
    · rw [serviceDedupGo, if_neg h]
      by_cases hw : walletKey w = k
      · have hp : ((fun v => walletKey v == k) w) = true := by simpa using hw
        rw [find?_cons_true (fun v => walletKey v == k) w _ hp,
          find?_cons_true (fun v => walletKey v == k) w rest hp]
      · have hp : ((fun v => walletKey v == k) w) = false := by simpa using hw
        rw [find?_cons_false (fun v => walletKey v == k) w _ hp,
          find?_cons_false (fun v => walletKey v == k) w rest hp]
        refine ih (walletKey w :: seen) k ?_
        intro hmem
        rcases List.mem_cons.mp hmem with hmem | hmem
        · exact hw hmem.symm
        · exact hk hmem

/-- Keys present after an upsert were present before or are the new
record's key. -/
theorem mem_fst_upsertWallet :
    ∀ (m : List (String × FreshWallet)) (w : FreshWallet) (x : String),
      x ∈ (upsertWallet m w).map Prod.fst →
        x ∈ m.map Prod.fst ∨ x = walletKey w := by
  intro m w
  induction m with
  | nil => intro x hx; simpa [upsertWallet] using hx
  | cons p rest ih =>
    obtain ⟨k, v⟩ := p
    intro x hx
    by_cases h : k = walletKey w
    · rw [upsertWallet, if_pos h] at hx
      split at hx <;> simp_all
    · rw [upsertWallet, if_neg h] at hx
      simp only [List.map_cons, List.mem_cons] at hx ⊢
      rcases hx with hx | hx
      · exact Or.inl (Or.inl hx)
      · rcases ih x hx with hx | hx
        · exact Or.inl (Or.inr hx)
        · exact Or.inr hx

/-- An upsert keeps the key list duplicate-free. -/
theorem nodup_fst_upsertWallet :
    ∀ (m : List (String × FreshWallet)) (w : FreshWallet),
      (m.map Prod.fst).Nodup → ((upsertWallet m w).map Prod.fst).Nodup := by
  intro m w
  induction m with
  | nil => intro _; simp [upsertWallet]
  | cons p rest ih =>
    obtain ⟨k, v⟩ := p
    intro hnd
    simp only [List.map_cons, List.nodup_cons] at hnd
    obtain ⟨hk, hrest⟩ := hnd
    by_cases h : k = walletKey w
    · rw [upsertWallet, if_pos h]
      split <;> simp only [List.map_cons, List.nodup_cons] <;>
        exact ⟨hk, hrest⟩
    · rw [upsertWallet, if_neg h]
      simp only [List.map_cons, List.nodup_cons]
      refine ⟨?_, ih hrest⟩
      intro hmem
      rcases mem_fst_upsertWallet rest w k hmem with hmem | hmem
      · exact hk hmem
      · exact h hmem

/-- Every map entry stores a record whose key is its index key. -/
theorem walletKey_snd_upsertWallet :
    ∀ (m : List (String × FreshWallet)) (w : FreshWallet),
      (∀ p ∈ m, walletKey p.2 = p.1) →
      ∀ p ∈ upsertWallet m w, walletKey p.2 = p.1 := by
  intro m w
  induction m with
  | nil =>
    intro _ p hp
    simp only [upsertWallet, List.mem_singleton] at hp
    simp [hp]
  | cons q rest ih =>
    obtain ⟨k, v⟩ := q
    intro hco p hp
    by_cases h : k = walletKey w
    · rw [upsertWallet, if_pos h] at hp
      split at hp <;> rcases List.mem_cons.mp hp with hp | hp
      · simp [hp, h]
      · exact hco p (List.mem_cons_of_mem _ hp)
      · exact hp ▸ hco (k, v) (List.mem_cons_self _ _)
      · exact hco p (List.mem_cons_of_mem _ hp)
    · rw [upsertWallet, if_neg h] at hp
      rcases List.mem_cons.mp hp with hp | hp
      · exact hp ▸ hco (k, v) (List.mem_cons_self _ _)
      · exact ih (fun q hq => hco q (List.mem_cons_of_mem _ hq)) p hp

/-- An upsert preserves "the map holds, for this key, a record at least
as large as `w₀`". -/
theorem upsertWallet_preserves_bound :
    ∀ (m : List (String × FreshWallet)) (w w₀ : FreshWallet),
      (∃ p ∈ m, p.1 = walletKey w₀ ∧
        w₀.initDepositUSD ≤ p.2.initDepositUSD) →
      ∃ p ∈ upsertWallet m w, p.1 = walletKey w₀ ∧
        w₀.initDepositUSD ≤ p.2.initDepositUSD := by
  intro m w w₀
  induction m with
  | nil => rintro ⟨p, hp, -⟩; exact absurd hp (List.not_mem_nil p)
  | cons q rest ih =>
    obtain ⟨k, v⟩ := q
    rintro ⟨p, hp, hpk, hple⟩
    by_cases h : k = walletKey w
    · rw [upsertWallet, if_pos h]
      split
      · rename_i hlt
        rcases List.mem_cons.mp hp with hp2 | hp2
        · subst hp2
          exact ⟨(k, w), List.mem_cons_self _ _, hpk,
            le_of_lt (lt_of_le_of_lt hple hlt)⟩
        · exact ⟨p, List.mem_cons_of_mem _ hp2, hpk, hple⟩
      · exact ⟨p, hp, hpk, hple⟩
    · rw [upsertWallet, if_neg h]
      rcases List.mem_cons.mp hp with hp2 | hp2
      · subst hp2
        exact ⟨(k, v), List.mem_cons_self _ _, hpk, hple⟩
      · obtain ⟨p₂, hp₂, hk₂, hle₂⟩ := ih ⟨p, hp2, hpk, hple⟩
        exact ⟨p₂, List.mem_cons_of_mem _ hp₂, hk₂, hle₂⟩

/-- After upserting `w`, the map holds, for `w`'s key, a record at least
as large as `w`. -/
theorem upsertWallet_covers_new :
    ∀ (m : List (String × FreshWallet)) (w : FreshWallet),
      ∃ p ∈ upsertWallet m w, p.1 = walletKey w ∧
        w.initDepositUSD ≤ p.2.initDepositUSD := by
  intro m w
  induction m with
  | nil => exact ⟨(walletKey w, w), List.mem_singleton.mpr rfl, rfl, le_refl _⟩
  | cons q rest ih =>
    obtain ⟨k, v⟩ := q
    by_cases h : k = walletKey w
    · rw [upsertWallet, if_pos h]
      split
      · exact ⟨(k, w), List.mem_cons_self _ _, h, le_refl _⟩
      · rename_i hnlt
        exact ⟨(k, v), List.mem_cons_self _ _, h, le_of_not_lt hnlt⟩
    · rw [upsertWallet, if_neg h]
      obtain ⟨p, hp, hpk, hple⟩ := ih
      exact ⟨p, List.mem_cons_of_mem _ hp, hpk, hple⟩

/-- Folding the input through the map preserves coherence of stored
records with their keys. -/
theorem foldl_upsert_coherent :
    ∀ (l : List FreshWallet) (m : List (String × FreshWallet)),
      (∀ p ∈ m, walletKey p.2 = p.1) →
      ∀ p ∈ l.foldl upsertWallet m, walletKey p.2 = p.1 := by
  intro l
  induction l with
  | nil => intro m hm; exact hm
  | cons w rest ih =>
    intro m hm
    exact ih (upsertWallet m w) (walletKey_snd_upsertWallet m w hm)

/-- Folding the input through the map keeps the key list
duplicate-free. -/
theorem foldl_upsert_nodup :
    ∀ (l : List FreshWallet) (m : List (String × FreshWallet)),
      (m.map Prod.fst).Nodup →
      ((l.foldl upsertWallet m).map Prod.fst).Nodup := by
  intro l
  induction l with
  | nil => intro m hm; exact hm
  | cons w rest ih =>
    intro m hm
    exact ih (upsertWallet m w) (nodup_fst_upsertWallet m w hm)

/-- Every input record is dominated in the final map: some entry carries
its key and at least its deposit. -/
theorem foldl_upsert_bound :
    ∀ (l : List FreshWallet) (m : List (String × FreshWallet))
      (w₀ : FreshWallet),
      ((∃ p ∈ m, p.1 = walletKey w₀ ∧
          w₀.initDepositUSD ≤ p.2.initDepositUSD) ∨ w₀ ∈ l) →
      ∃ p ∈ l.foldl upsertWallet m, p.1 = walletKey w₀ ∧
        w₀.initDepositUSD ≤ p.2.initDepositUSD := by
  intro l
  induction l with
  | nil =>
    intro m w₀ h
    rcases h with h | h
    · exact h
    · exact absurd h (List.not_mem_nil w₀)
  | cons w rest ih =>
    intro m w₀ h
    rcases h with h | h
    · exact ih (upsertWallet m w) w₀
        (Or.inl (upsertWallet_preserves_bound m w w₀ h))
    · rcases List.mem_cons.mp h with h | h
      · subst h
        exact ih (upsertWallet m w₀) w₀
          (Or.inl (upsertWallet_covers_new m w₀))
      · exact ih (upsertWallet m w) w₀ (Or.inr h)

/-! ## C6: main theorems -/

/-- C6 counterexample: the claim says a `(wallet, chain)` collision keeps
the entry with the larger `initDepositUSD`, yet the service-level
`removeDuplicateWallets` keeps the first entry even when a later
duplicate has a larger deposit. -/
theorem dedup_keeps_first_cex :
    FreshWalletService.removeDuplicateWallets
        [⟨"0xa", "ethereum", 100⟩, ⟨"0xa", "ethereum", 200⟩] =
      [⟨"0xa", "ethereum", 100⟩] ∧ (100 : USD) < 200 := by
  constructor
  · rfl
  · norm_num

/-- C6 amended: neither deduplication emits two entries with the same
`(wallet, chain)` key; the scanner-level merge keeps, for every input
record, an entry with its key and at least its deposit (so the larger
deposit wins a collision there), while the service-level dedup keeps the
first input record of each key regardless of deposit. -/
theorem merge_dedup_amended :
    (∀ l : List FreshWallet,
      ((FreshWalletService.removeDuplicateWallets l).map walletKey).Nodup)
    ∧ (∀ l : List FreshWallet,
      ((FreshWalletScanner.removeDuplicateWallets l).map walletKey).Nodup)
    ∧ (∀ (l : List FreshWallet) (w : FreshWallet), w ∈ l →
      ∃ v, v ∈ FreshWalletScanner.removeDuplicateWallets l ∧
        walletKey v = walletKey w ∧ w.initDepositUSD ≤ v.initDepositUSD)
    ∧ (∀ (l : List FreshWallet) (k : String),
      (FreshWalletService.removeDuplicateWallets l).find?
          (fun v => walletKey v == k) =
        l.find? (fun v => walletKey v == k)) := by
  refine ⟨?_, ?_, ?_, ?_⟩
  · intro l
    exact (serviceDedupGo_nodup_avoid l []).1
  · intro l
    unfold FreshWalletScanner.removeDuplicateWallets
    rw [List.map_map]
    have hco : ∀ p ∈ l.foldl upsertWallet [], walletKey p.2 = p.1 :=
      foldl_upsert_coherent l [] (by simp)
    have : (l.foldl upsertWallet []).map (walletKey ∘ Prod.snd) =
        (l.foldl upsertWallet []).map Prod.fst :=
      List.map_congr_left (fun p hp => hco p hp)
    rw [this]
    exact foldl_upsert_nodup l [] (by simp)
  · intro l w hw
    obtain ⟨p, hp, hpk, hple⟩ :=
      foldl_upsert_bound l [] w (Or.inr hw)
    refine ⟨p.2, ?_, ?_, hple⟩
    · exact List.mem_map_of_mem Prod.snd hp
    · rw [foldl_upsert_coherent l [] (by simp) p hp]
      exact hpk
  · intro l k
    exact serviceDedupGo_find? l [] k (List.not_mem_nil k)

/-- Witness for `merge_dedup_amended` at a concrete input with a
collision. -/
theorem merge_dedup_amended_witness :
    ∃ v, v ∈ FreshWalletScanner.removeDuplicateWallets
        [⟨"0xa", "ethereum", 100⟩, ⟨"0xa", "ethereum", 200⟩] ∧
      walletKey v = walletKey ⟨"0xa", "ethereum", 100⟩ ∧
      (100 : USD) ≤ v.initDepositUSD :=
  merge_dedup_amended.2.2.1
    [⟨"0xa", "ethereum", 100⟩, ⟨"0xa", "ethereum", 200⟩]
    ⟨"0xa", "ethereum", 100⟩ (by simp)
end NansenFresh
